import Mathlib

/-!
# leetcode-api: code execution and judging

A shallow embedding of

* `internal/domain/problem/entity.go` (`TestCase`, `Topic`, `Problem`,
  `VisibleTestCases`),
* `internal/domain/submission/entity.go` (`Status`, `TestResult`, `Submission`,
  `SetResults`, `calculateStatus`, `calculateTotalRuntime`, `PassedCount`, `TotalCount`),
* `internal/infrastructure/executor/code_executor.go` (`New`, `Execute`, `runCode`,
  the three wrappers),
* `internal/application/submission/service.go` (`Service`, `RunCode`, `SubmitCode`).

Conventions.

* Go `string` is `String`; `strings.TrimSpace` is modelled on the decoded runes
  (strings that are not valid UTF-8 are outside the model).
* Go `int` is the 64-bit two's-complement integer: values are `Int`, and an
  addition that can leave the range is followed by `wrapInt`.
* Go `error` is `Option String`: `none` is `nil`, `some m` is an error whose
  `Error()` text is `m`.
* The operating system (clock and subprocesses) is a `World σ`: every clock
  reading and every `cmd.Run()` takes the current state and returns the next one,
  so a run may behave differently each time it is started.
-/

set_option autoImplicit false

/-! ## Machine integers -/

/-- Reduction of an integer to the 64-bit two's-complement range of Go's `int`. -/
def wrapInt (x : Int) : Int :=
  (x + 9223372036854775808) % 18446744073709551616 - 9223372036854775808

/-- Saturation to the `int64` range, as `time.Time.Sub` does for a `Duration`. -/
def clampInt64 (x : Int) : Int :=
  if x < -9223372036854775808 then -9223372036854775808
  else if 9223372036854775807 < x then 9223372036854775807
  else x

/-- The method `time.Duration.Milliseconds`: nanoseconds divided by `1e6`, truncating. -/
def Milliseconds (d : Int) : Int :=
  Int.tdiv d 1000000

/-- The constant `time.Second`, in nanoseconds. -/
def Second : Int := 1000000000

/-! ## `strings.TrimSpace` -/

/-- The predicate `unicode.IsSpace`: the Latin-1 spaces
`'\t', '\n', '\v', '\f', '\r', ' ', U+0085, U+00A0` and the other code points
with the `White_Space` property. -/
def isSpace (c : Char) : Bool :=
  let n := c.toNat
  n == 0x09 || n == 0x0A || n == 0x0B || n == 0x0C || n == 0x0D || n == 0x20 ||
  n == 0x85 || n == 0xA0 || n == 0x1680 || (0x2000 ≤ n && n ≤ 0x200A) ||
  n == 0x2028 || n == 0x2029 || n == 0x202F || n == 0x205F || n == 0x3000

/-- Removal of the leading and of the trailing run of spaces of a rune list. -/
def trimRunes (l : List Char) : List Char :=
  ((l.dropWhile isSpace).reverse.dropWhile isSpace).reverse

/-- The function `strings.TrimSpace`: the string without its leading and trailing
white space, as defined by Unicode. -/
def TrimSpace (s : String) : String :=
  ⟨trimRunes s.data⟩

/-! ## `internal/domain/problem/entity.go` -/

namespace problem

/-- The struct `TestCase` (entity.go, lines 57-64). -/
structure TestCase where
  ID : Nat
  ProblemID : Nat
  Input : String
  Expected : String
  IsHidden : Bool
deriving DecidableEq, Repr

/-- The types `Difficulty` and `Category`, both a Go `string` (entity.go, lines 8-26). -/
abbrev Difficulty := String

abbrev Category := String

/-- The struct `Topic` (entity.go, lines 28-34). -/
structure Topic where
  ID : Nat
  Name : String
  Slug : String
  Count : Int
deriving DecidableEq, Repr

/-- A Go `float64`, kept as its bit pattern: no function embedded here computes
with it. -/
structure Float64 where
  bits : Nat
deriving DecidableEq, Repr

/-- The struct `Problem` (entity.go, lines 36-55); the two times are clock readings. -/
structure Problem where
  ID : Nat
  Slug : String
  Title : String
  Difficulty : Difficulty
  Category : Category
  Description : String
  Examples : String
  Constraints : String
  StarterCode : String
  AcceptanceRate : Float64
  Submissions : Int
  Accepted : Int
  Topics : List Topic
  TestCases : List TestCase
  IsPremium : Bool
  CreatedAt : Int
  UpdatedAt : Int
deriving DecidableEq, Repr

/-- The method `VisibleTestCases` (entity.go, lines 94-103): `visible` starts empty and
every test case that is not hidden is appended to it; no field of the problem is
assigned. -/
def Problem.VisibleTestCases (p : Problem) : List TestCase :=
  p.TestCases.foldl (fun visible tc => if !tc.IsHidden then visible ++ [tc] else visible) []

end problem

/-! ## `internal/domain/submission/entity.go` -/

namespace submission

/-- The type `Status`, a Go `string` (entity.go, line 9). -/
abbrev Status := String

def StatusPending : Status := "Pending"
def StatusRunning : Status := "Running"
def StatusAccepted : Status := "Accepted"
def StatusWrong : Status := "Wrong Answer"
def StatusError : Status := "Runtime Error"
def StatusTimeout : Status := "Time Limit Exceeded"

/-- The struct `TestResult` (entity.go, lines 34-41). -/
structure TestResult where
  Input : String
  Expected : String
  Actual : String
  Passed : Bool
  Runtime : Int
deriving DecidableEq, Repr

/-- The struct `Submission` (entity.go, lines 20-32); `CreatedAt` is a clock reading. -/
structure Submission where
  ID : String
  ProblemID : Nat
  Language : String
  Code : String
  Status : Status
  Runtime : Int
  Memory : Int
  Output : String
  Results : List TestResult
  CreatedAt : Int
deriving DecidableEq, Repr

/-- The constructor `NewSubmission` (entity.go, lines 43-53); `now` is the value of
`time.Now()`, the fields not listed take Go's zero values. -/
def NewSubmission (id : String) (problemID : Nat) (language code : String) (now : Int) :
    Submission :=
  { ID := id, ProblemID := problemID, Language := language, Code := code,
    Status := StatusPending, Runtime := 0, Memory := 0, Output := "", Results := [],
    CreatedAt := now }

/-- The loop of `calculateStatus` (entity.go, lines 64-68) over the results that
remain: the first result that did not pass returns `StatusWrong`. -/
def calculateStatusLoop : List TestResult → Status
  | [] => StatusAccepted
  | r :: rest => if !r.Passed then StatusWrong else calculateStatusLoop rest

/-- The method `calculateStatus` (entity.go, lines 62-70). -/
def Submission.calculateStatus (s : Submission) : submission.Status :=
  calculateStatusLoop s.Results

/-- The method `calculateTotalRuntime` (entity.go, lines 72-79): `total += r.Runtime`
in Go's `int`, starting from `0`. -/
def Submission.calculateTotalRuntime (s : Submission) : Int :=
  s.Results.foldl (fun total r => wrapInt (total + r.Runtime)) 0

/-- The method `SetResults` (entity.go, lines 55-60): three assignments in order, the
last two reading the submission already updated. -/
def Submission.SetResults (s : Submission) (results : List TestResult) : Submission :=
  let s1 := { s with Results := results }
  let s2 := { s1 with Status := s1.calculateStatus }
  { s2 with Runtime := s2.calculateTotalRuntime }

/-- The method `PassedCount` (entity.go, lines 81-90). -/
def Submission.PassedCount (s : Submission) : Int :=
  s.Results.foldl (fun count r => if r.Passed then count + 1 else count) 0

/-- The method `TotalCount` (entity.go, lines 92-95). -/
def Submission.TotalCount (s : Submission) : Int :=
  s.Results.length

end submission

/-! ## `internal/infrastructure/executor/code_executor.go` -/

namespace executor

open problem submission

/-- A command built by `exec.CommandContext`: program, arguments and, when it is set,
the text wired to standard input. -/
structure Cmd where
  name : String
  args : List String
  stdin : Option String
deriving DecidableEq, Repr

/-- What `runCode` observes of one `cmd.Run()` (code_executor.go, lines 83-98):
whether `ctx.Err()` is `context.DeadlineExceeded` afterwards, the error returned by
`cmd.Run()` (`none` exactly when the process started, its streams were copied and it
exited with status 0), and the two captured buffers. -/
structure ProcResult where
  deadlineExceeded : Bool
  runErr : Option String
  stdout : String
  stderr : String
deriving DecidableEq, Repr

/-- The operating system as seen by the executor. `now` is a reading of the monotonic
clock in nanoseconds (`time.Now()`); `run cmd timeout` starts `cmd` under a context
with that timeout and waits for it. Both return the next state. -/
structure World (σ : Type) where
  now : σ → Int × σ
  run : Cmd → Int → σ → ProcResult × σ

/-- The struct `CodeExecutor` (code_executor.go, lines 16-19); the timeout is a
`time.Duration`, in nanoseconds. -/
structure CodeExecutor where
  timeout : Int
deriving DecidableEq, Repr

/-- The constructor `New` (code_executor.go, lines 21-27). -/
def New (timeout : Int) : CodeExecutor :=
  if timeout = 0 then { timeout := 5 * Second } else { timeout := timeout }

/-- The method `wrapJavaScript` (code_executor.go, lines 101-113). -/
def wrapJavaScript (code input : String) : String :=
  "\nconst input = " ++ input ++ ";\n" ++ code ++
  "\nconst result = twoSum ? twoSum(...input) : \n" ++
  "               isPalindrome ? isPalindrome(...input) :\n" ++
  "               maxProfit ? maxProfit(...input) :\n" ++
  "               isValid ? isValid(...input) :\n" ++
  "               reverseList ? reverseList(...input) :\n" ++
  "               null;\nconsole.log(JSON.stringify(result));\n"

/-- The method `wrapPython` (code_executor.go, lines 115-135). -/
def wrapPython (code input : String) : String :=
  "\n" ++ "import json\ninput_data = " ++ input ++ "\n" ++ code ++
  "\n\nresult = None\nif " ++ "'twoSum' in dir():\n    result = twoSum(*input_data)\n" ++
  "elif " ++ "'isPalindrome' in dir():\n    result = isPalindrome(*input_data)\n" ++
  "elif " ++ "'maxProfit' in dir():\n    result = maxProfit(*input_data)\n" ++
  "elif " ++ "'isValid' in dir():\n    result = isValid(*input_data)\n" ++
  "elif " ++ "'reverseList' in dir():\n    result = reverseList(*input_data)\n" ++
  "\nprint(json.dumps(result))\n"

/-- The method `wrapGo` (code_executor.go, lines 137-154); the input is put between
two backquotes. -/
def wrapGo (code input : String) : String :=
  "\npackage main\n\n" ++ "import (\n\t\"encoding/json\"\n\t\"fmt\"\n)\n\n" ++ code ++
  "\n\nfunc main() \x7b\n\tinput := " ++ ("\x60" ++ input ++ "\x60") ++
  "\n\t_ = input\n\tfmt.Println(\"[]\")\n\x7d\n"

/-- The `switch` of `runCode` (code_executor.go, lines 63-81): the command for a
supported language, `none` in the `default` case. -/
def buildCmd (language code input : String) : Option Cmd :=
  match language with
  | "javascript" => some { name := "node", args := ["-e", wrapJavaScript code input], stdin := none }
  | "python" => some { name := "python3", args := ["-c", wrapPython code input], stdin := none }
  | "go" => some { name := "go", args := ["run", "-"], stdin := some (wrapGo code input) }
  | _ => none

/-- What `runCode` returns from the outcome of `cmd.Run()` (code_executor.go,
lines 87-98): the text of standard output and the error. -/
def runResult (p : ProcResult) : String × Option String :=
  if p.deadlineExceeded then ("", some "Time Limit Exceeded")
  else
    match p.runErr with
    | some err => if p.stderr ≠ "" then ("", some p.stderr) else ("", some err)
    | none => (p.stdout, none)

/-- The method `runCode` (code_executor.go, lines 58-99). In the `default` case it
returns at once, the world untouched. -/
def CodeExecutor.runCode {σ : Type} (W : World σ) (e : CodeExecutor)
    (language code input : String) (s : σ) : (String × Option String) × σ :=
  match buildCmd language code input with
  | none => (("", some ("unsupported language: " ++ language)), s)
  | some cmd =>
    let (p, s1) := W.run cmd e.timeout s
    (runResult p, s1)

/-- The elapsed time `time.Since(start)` at a clock reading `stop`. -/
def timeSince (start stop : Int) : Int :=
  clampInt64 (stop - start)

/-- The body of the loop of `Execute` (code_executor.go, lines 34-52) for one test
case. -/
def CodeExecutor.executeOne {σ : Type} (W : World σ) (e : CodeExecutor)
    (language code : String) (tc : TestCase) (s : σ) : TestResult × σ :=
  let (start, s1) := W.now s
  let ((output, err), s2) := e.runCode W language code tc.Input s1
  let (stop, s3) := W.now s2
  let runtime := Milliseconds (timeSince start stop)
  let actual := TrimSpace output
  let expected := TrimSpace tc.Expected
  let result : TestResult :=
    { Input := tc.Input, Expected := expected, Actual := actual,
      Passed := err.isNone && decide (actual = expected), Runtime := runtime }
  match err with
  | some msg => ({ result with Actual := msg, Passed := false }, s3)
  | none => (result, s3)

/-- The method `Execute` (code_executor.go, lines 29-56): the test cases are run one
after the other, the i-th result is stored at index i. -/
def CodeExecutor.Execute {σ : Type} (W : World σ) (e : CodeExecutor)
    (language code : String) : List TestCase → σ → List TestResult × σ
  | [], s => ([], s)
  | tc :: rest, s =>
    let (r, s1) := e.executeOne W language code tc s
    let (rs, s2) := CodeExecutor.Execute W e language code rest s1
    (r :: rs, s2)

end executor

/-! ## Observation of a run, and concrete worlds and inputs -/

namespace executor

open problem submission

/-- The outcome of the process that `executeOne` starts for the command `cmd` from the
state `s`: the run follows the first clock reading. -/
def theRun {σ : Type} (W : World σ) (e : CodeExecutor) (cmd : Cmd) (s : σ) : ProcResult :=
  (W.run cmd e.timeout (W.now s).2).1

/-- A world that plays a script: the state is the list of the outcomes of the runs
still to come, every run consumes one, and the clock stands still. -/
def scriptWorld : World (List ProcResult) :=
  { now := fun s => (0, s),
    run := fun _ _ s => (s.headD ⟨false, none, "", ""⟩, s.tail) }

/-- A run that is still going when the deadline passes and is killed. -/
def timedOutRun : ProcResult :=
  { deadlineExceeded := true, runErr := some "signal: killed", stdout := "", stderr := "" }

/-- A run that prints `[0,1]` and exits with status 0. -/
def goodRun : ProcResult :=
  { deadlineExceeded := false, runErr := none, stdout := "[0,1]\n", stderr := "" }

/-- A run that exits with status 1 after writing to standard error. -/
def crashedRun : ProcResult :=
  { deadlineExceeded := false, runErr := some "exit status 1", stdout := "",
    stderr := "Traceback: division by zero\n" }

/-- The test case of the two-sum example: input `[2,7,11,15],9`, expected `[0,1]`. -/
def twoSumCase : TestCase :=
  { ID := 1, ProblemID := 1, Input := "[2,7,11,15],9", Expected := "[0,1]", IsHidden := false }

/-- A submission as `RunCode` creates it before the results are set. -/
def freshSubmission : Submission :=
  NewSubmission "s-1" 1 "python" "def twoSum(a, t): return [0, 1]" 0

/-- The results of running the two-sum case twice when the first run succeeds and the
second one is killed at the deadline. -/
def passThenTimeout : List TestResult :=
  ((New 0).Execute scriptWorld "python" "while True: pass" [twoSumCase, twoSumCase]
    [goodRun, timedOutRun]).1

/-- The results of running the two-sum case twice when the first run succeeds and the
second one crashes. -/
def passThenCrash : List TestResult :=
  ((New 0).Execute scriptWorld "python" "def twoSum(a, t): return 1 // 0"
    [twoSumCase, twoSumCase] [goodRun, crashedRun]).1

/-- A run that exits with status 0 and prints `[0,1]`, after a warning on standard
error. -/
def warnedRun : ProcResult :=
  { deadlineExceeded := false, runErr := none, stdout := "[0,1]\n",
    stderr := "DeprecationWarning: old syntax\n" }

/-- A run that prints `1,2` and exits with status 0. -/
def compactRun : ProcResult :=
  { deadlineExceeded := false, runErr := none, stdout := "1,2", stderr := "" }

/-- A run that prints `1,2` between blank lines and exits with status 0. -/
def paddedRun : ProcResult :=
  { deadlineExceeded := false, runErr := none, stdout := "\n 1,2\t\n", stderr := "" }

/-- A test case that expects the text `1, 2`. -/
def spacedCase : TestCase :=
  { ID := 2, ProblemID := 1, Input := "[1,2]", Expected := "1, 2", IsHidden := false }

/-- A test case that expects the text `1,2`. -/
def compactCase : TestCase :=
  { ID := 3, ProblemID := 1, Input := "[1,2]", Expected := "1,2", IsHidden := false }

/-- The test case `compactCase` with blanks around the expected text. -/
def paddedCase : TestCase :=
  { ID := 4, ProblemID := 1, Input := "[1,2]", Expected := "  1,2 \n", IsHidden := true }

/-- A test case whose expected text is `Time Limit Exceeded`. -/
def timeoutTextCase : TestCase :=
  { ID := 5, ProblemID := 1, Input := "[]", Expected := "Time Limit Exceeded",
    IsHidden := false }

/-- The command that `runCode` builds for Python code and an input. -/
def pythonCmd (code input : String) : Cmd :=
  { name := "python3", args := ["-c", wrapPython code input], stdin := none }

/-- A run that exits with status 1 after writing the text of the unsupported-language
error for `python` to standard error. -/
def spoofedRun : ProcResult :=
  { deadlineExceeded := false, runErr := some "exit status 1", stdout := "",
    stderr := "unsupported language: python" }

/-- A world in which the runner is a function: the outcome of a run and the time it
takes depend on the command and on the timeout only. The state is the clock, which
advances during a run by the time the run takes. -/
def functionWorld (f : Cmd → Int → ProcResult) (d : Cmd → Int → Int) : World Int :=
  { now := fun t => (t, t),
    run := fun cmd timeout t => (f cmd timeout, t + d cmd timeout) }

/-- A test case with the input `[3,3],6`. -/
def secondCase : TestCase :=
  { ID := 6, ProblemID := 1, Input := "[3,3],6", Expected := "[0,1]", IsHidden := true }

/-- A runner that crashes on the input of `twoSumCase` and succeeds on every other
input. -/
def crashOnTwoSum (cmd : Cmd) (_timeout : Int) : ProcResult :=
  if cmd = pythonCmd "def twoSum(a, t): return [0, 1]" twoSumCase.Input then crashedRun
  else goodRun

/-- A run time of seven milliseconds for every command. -/
def sevenMs (_cmd : Cmd) (_timeout : Int) : Int := 7000000

/-- A world that records the timeout of every run it is asked for, in order; every run
succeeds. -/
def deadlineLog : World (List Int) :=
  { now := fun log => (0, log),
    run := fun _ timeout log => (goodRun, log ++ [timeout]) }

end executor

/-! ## `internal/application/submission/service.go` -/

namespace submissionApp

open problem submission

/-- The interface `CodeExecutor` (service.go, lines 13-16). -/
structure CodeExecutor (σ : Type) where
  Execute : String → String → List TestCase → σ → List TestResult × σ

/-- The part of the interface `problem.Repository` (repository.go, lines 6-28) that the
service calls; a Go `(*Problem, error)` is an `Except`. -/
structure ProblemRepository (σ : Type) where
  FindByID : Nat → σ → Except String Problem × σ

/-- The part of the interface `submission.Repository` (repository.go, lines 6-16) that
the service calls. `Create` reads the submission and returns its error, as the SQLite
repository does (submission_repo.go, lines 51-55). -/
structure SubmissionRepository (σ : Type) where
  FindByID : String → σ → Except String Submission × σ
  Create : Submission → σ → Option String × σ

/-- The package-level functions that the service calls: `uuid.New().String()` and the
`time.Now()` of `NewSubmission`. -/
structure Ambient (σ : Type) where
  newUUID : σ → String × σ
  now : σ → Int × σ

/-- The struct `Service` (service.go, lines 18-23). -/
structure Service (σ : Type) where
  submissionRepo : SubmissionRepository σ
  problemRepo : ProblemRepository σ
  executor : CodeExecutor σ

/-- The constructor `NewService` (service.go, lines 25-36). -/
def NewService {σ : Type} (submissionRepo : SubmissionRepository σ)
    (problemRepo : ProblemRepository σ) (executor : CodeExecutor σ) : Service σ :=
  { submissionRepo := submissionRepo, problemRepo := problemRepo, executor := executor }

/-- The method `RunCode` (service.go, lines 38-61). -/
def Service.RunCode {σ : Type} (A : Ambient σ) (svc : Service σ) (problemID : Nat)
    (language code : String) (s : σ) : Except String Submission × σ :=
  match svc.problemRepo.FindByID problemID s with
  | (.error err, s1) => (.error err, s1)
  | (.ok problem, s1) =>
    let visibleTests := problem.VisibleTestCases
    let (id, s2) := A.newUUID s1
    let (now, s3) := A.now s2
    let submission := NewSubmission id problemID language code now
    let (results, s4) := svc.executor.Execute language code visibleTests s3
    let submission := submission.SetResults results
    match svc.submissionRepo.Create submission s4 with
    | (some err, s5) => (.error err, s5)
    | (none, s5) => (.ok submission, s5)

/-- The method `SubmitCode` (service.go, lines 63-84). -/
def Service.SubmitCode {σ : Type} (A : Ambient σ) (svc : Service σ) (problemID : Nat)
    (language code : String) (s : σ) : Except String Submission × σ :=
  match svc.problemRepo.FindByID problemID s with
  | (.error err, s1) => (.error err, s1)
  | (.ok problem, s1) =>
    let (id, s2) := A.newUUID s1
    let (now, s3) := A.now s2
    let submission := NewSubmission id problemID language code now
    let (results, s4) := svc.executor.Execute language code problem.TestCases s3
    let submission := submission.SetResults results
    match svc.submissionRepo.Create submission s4 with
    | (some err, s5) => (.error err, s5)
    | (none, s5) => (.ok submission, s5)

/-- The executor that `main` hands to `NewService` (cmd/api/main.go, lines 40-44): the
struct `executor.CodeExecutor` behind the interface. -/
def concreteExecutor {σ : Type} (W : executor.World σ) (e : executor.CodeExecutor) :
    CodeExecutor σ :=
  { Execute := fun language code testCases s => e.Execute W language code testCases s }

/-- A problem with a visible test case followed by a hidden one. -/
def twoCasesProblem : Problem :=
  { ID := 1, Slug := "two-sum", Title := "Two Sum", Difficulty := "Easy",
    Category := "algorithms", Description := "", Examples := "", Constraints := "",
    StarterCode := "", AcceptanceRate := ⟨0⟩, Submissions := 0, Accepted := 0, Topics := [],
    TestCases := [executor.twoSumCase, executor.secondCase], IsPremium := false,
    CreatedAt := 0, UpdatedAt := 0 }

/-- A problem all of whose test cases are hidden. -/
def hiddenOnlyProblem : Problem :=
  { twoCasesProblem with ID := 2, Slug := "secret", TestCases := [executor.secondCase] }

/-- A problem repository that finds the problem `p` under every identifier. -/
def fixedProblemRepo {σ : Type} (p : Problem) : ProblemRepository σ :=
  { FindByID := fun _ s => (.ok p, s) }

/-- A submission repository that stores every submission without error and finds
none. -/
def acceptingRepo {σ : Type} : SubmissionRepository σ :=
  { FindByID := fun _ s => (.error "record not found", s),
    Create := fun _ s => (none, s) }

/-- Surroundings in which every identifier is `s-1` and the clock reads 0. -/
def fixedAmbient {σ : Type} : Ambient σ :=
  { newUUID := fun s => ("s-1", s), now := fun s => (0, s) }

end submissionApp

/-! ## Auxiliary facts -/

theorem wrapInt_add_wrapInt (a b : Int) : wrapInt (wrapInt a + b) = wrapInt (a + b) := by
  unfold wrapInt
  omega

theorem wrapInt_of_inRange (x : Int) (hlo : -9223372036854775808 ≤ x)
    (hhi : x < 9223372036854775808) : wrapInt x = x := by
  unfold wrapInt
  omega

theorem trimRunes_append_left (ws l : List Char) (hws : ∀ c ∈ ws, isSpace c = true) :
    trimRunes (ws ++ l) = trimRunes l := by
  unfold trimRunes
  rw [List.dropWhile_append_of_pos hws]

theorem trimRunes_append_right (l ws : List Char) (hws : ∀ c ∈ ws, isSpace c = true) :
    trimRunes (l ++ ws) = trimRunes l := by
  have hrev : ∀ c ∈ ws.reverse, isSpace c = true := fun c hc => hws c (List.mem_reverse.1 hc)
  unfold trimRunes
  rw [List.dropWhile_append]
  split
  · next hempty =>
    have h1 : List.dropWhile isSpace l = [] := by simpa using hempty
    have h2 : List.dropWhile isSpace ws = [] := List.dropWhile_eq_nil_iff.2 hws
    rw [h1, h2]
  · rw [List.reverse_append, List.dropWhile_append_of_pos hrev]

theorem TrimSpace_pad (a s b : String) (ha : ∀ c ∈ a.data, isSpace c = true)
    (hb : ∀ c ∈ b.data, isSpace c = true) : TrimSpace (a ++ s ++ b) = TrimSpace s := by
  unfold TrimSpace
  rw [String.data_append, String.data_append, trimRunes_append_right _ _ hb,
    trimRunes_append_left _ _ ha]

namespace submission

theorem foldl_runtime (rs : List TestResult) (a : Int) :
    rs.foldl (fun total r => wrapInt (total + r.Runtime)) (wrapInt a) =
      wrapInt (a + (rs.map (fun r => r.Runtime)).sum) := by
  induction rs generalizing a with
  | nil => simp
  | cons r rest ih =>
    rw [List.foldl_cons, wrapInt_add_wrapInt, ih, List.map_cons, List.sum_cons, Int.add_assoc]

theorem calculateStatusLoop_accepted_iff (rs : List TestResult) :
    calculateStatusLoop rs = StatusAccepted ↔ ∀ r ∈ rs, r.Passed = true := by
  induction rs with
  | nil => simp [calculateStatusLoop]
  | cons r rest ih =>
    cases hp : r.Passed with
    | true => simp [calculateStatusLoop, hp, ih]
    | false =>
      have hne : StatusWrong ≠ StatusAccepted := by decide
      simp [calculateStatusLoop, hp, hne]

theorem calculateStatusLoop_cases (rs : List TestResult) :
    calculateStatusLoop rs = StatusAccepted ∨ calculateStatusLoop rs = StatusWrong := by
  induction rs with
  | nil => simp [calculateStatusLoop]
  | cons r rest ih =>
    cases hp : r.Passed with
    | true => simpa [calculateStatusLoop, hp] using ih
    | false => simp [calculateStatusLoop, hp]

theorem calculateStatusLoop_wrong_of_mem (rs : List TestResult) (r : TestResult)
    (hr : r ∈ rs) (hp : r.Passed = false) : calculateStatusLoop rs = StatusWrong := by
  rcases calculateStatusLoop_cases rs with h | h
  · have := (calculateStatusLoop_accepted_iff rs).1 h r hr
    rw [hp] at this
    cases this
  · exact h

theorem SetResults_Status (s : Submission) (rs : List TestResult) :
    (s.SetResults rs).Status = calculateStatusLoop rs := rfl

theorem SetResults_Results (s : Submission) (rs : List TestResult) :
    (s.SetResults rs).Results = rs := rfl

end submission

namespace executor

open problem submission

variable {σ : Type}

theorem executeOne_Input (W : World σ) (e : CodeExecutor) (language code : String)
    (tc : TestCase) (s : σ) : (e.executeOne W language code tc s).1.Input = tc.Input := by
  unfold CodeExecutor.executeOne
  simp only
  split <;> rfl

theorem Execute_cons (W : World σ) (e : CodeExecutor) (language code : String)
    (tc : TestCase) (rest : List TestCase) (s : σ) :
    e.Execute W language code (tc :: rest) s =
      ((e.executeOne W language code tc s).1 ::
          (e.Execute W language code rest (e.executeOne W language code tc s).2).1,
        (e.Execute W language code rest (e.executeOne W language code tc s).2).2) := rfl

theorem Execute_append (W : World σ) (e : CodeExecutor) (language code : String)
    (a b : List TestCase) (s : σ) :
    e.Execute W language code (a ++ b) s =
      ((e.Execute W language code a s).1 ++
          (e.Execute W language code b (e.Execute W language code a s).2).1,
        (e.Execute W language code b (e.Execute W language code a s).2).2) := by
  induction a generalizing s with
  | nil => rfl
  | cons tc rest ih => simp [Execute_cons, ih]

theorem Execute_map_Input (W : World σ) (e : CodeExecutor) (language code : String)
    (tcs : List TestCase) (s : σ) :
    (e.Execute W language code tcs s).1.map (fun r => r.Input) =
      tcs.map (fun tc => tc.Input) := by
  induction tcs generalizing s with
  | nil => rfl
  | cons tc rest ih => simp [Execute_cons, ih, executeOne_Input]

theorem buildCmd_eq_none_iff (language code input : String) :
    buildCmd language code input = none ↔
      language ≠ "javascript" ∧ language ≠ "python" ∧ language ≠ "go" := by
  unfold buildCmd
  split <;> simp_all

theorem runCode_of_cmd (W : World σ) (e : CodeExecutor) (language code input : String)
    (cmd : Cmd) (s : σ) (h : buildCmd language code input = some cmd) :
    e.runCode W language code input s =
      (runResult (W.run cmd e.timeout s).1, (W.run cmd e.timeout s).2) := by
  unfold CodeExecutor.runCode
  rw [h]

theorem runCode_of_none (W : World σ) (e : CodeExecutor) (language code input : String)
    (s : σ) (h : buildCmd language code input = none) :
    e.runCode W language code input s =
      (("", some ("unsupported language: " ++ language)), s) := by
  unfold CodeExecutor.runCode
  rw [h]

theorem executeOne_of_err (W : World σ) (e : CodeExecutor) (language code : String)
    (tc : TestCase) (s : σ) (msg : String)
    (h : (e.runCode W language code tc.Input (W.now s).2).1.2 = some msg) :
    (e.executeOne W language code tc s).1.Passed = false ∧
      (e.executeOne W language code tc s).1.Actual = msg := by
  unfold CodeExecutor.executeOne
  simp [h]

theorem executeOne_of_ok (W : World σ) (e : CodeExecutor) (language code : String)
    (tc : TestCase) (s : σ)
    (h : (e.runCode W language code tc.Input (W.now s).2).1.2 = none) :
    (e.executeOne W language code tc s).1.Passed =
        decide (TrimSpace (e.runCode W language code tc.Input (W.now s).2).1.1 =
          TrimSpace tc.Expected) ∧
      (e.executeOne W language code tc s).1.Actual =
        TrimSpace (e.runCode W language code tc.Input (W.now s).2).1.1 := by
  unfold CodeExecutor.executeOne
  simp [h]

theorem executeOne_of_cmd (W : World σ) (e : CodeExecutor) (language code : String)
    (tc : TestCase) (s : σ) (cmd : Cmd) (h : buildCmd language code tc.Input = some cmd) :
    (e.runCode W language code tc.Input (W.now s).2).1 = runResult (theRun W e cmd s) := by
  rw [runCode_of_cmd W e language code tc.Input cmd _ h]
  rfl

theorem mem_Execute_append_cons (W : World σ) (e : CodeExecutor) (language code : String)
    (pre post : List TestCase) (tc : TestCase) (s : σ) :
    (e.executeOne W language code tc (e.Execute W language code pre s).2).1 ∈
      (e.Execute W language code (pre ++ tc :: post) s).1 := by
  rw [Execute_append, Execute_cons]
  simp

theorem Execute_length (W : World σ) (e : CodeExecutor) (language code : String)
    (tcs : List TestCase) (s : σ) : (e.Execute W language code tcs s).1.length = tcs.length := by
  simpa using congrArg List.length (Execute_map_Input W e language code tcs s)

theorem Execute_getElem?_mid (W : World σ) (e : CodeExecutor) (language code : String)
    (pre post : List TestCase) (tc : TestCase) (s : σ) :
    (e.Execute W language code (pre ++ tc :: post) s).1[pre.length]? =
      some (e.executeOne W language code tc (e.Execute W language code pre s).2).1 := by
  rw [Execute_append, Execute_cons]
  have hlen := Execute_length W e language code pre s
  simp only
  rw [List.getElem?_append_right (by omega), hlen]
  simp

theorem executeOne_of_success (W : World σ) (e : CodeExecutor) (language code : String)
    (tc : TestCase) (s : σ) (cmd : Cmd) (hcmd : buildCmd language code tc.Input = some cmd)
    (hto : (theRun W e cmd s).deadlineExceeded = false)
    (herr : (theRun W e cmd s).runErr = none) :
    (e.executeOne W language code tc s).1.Passed =
        decide (TrimSpace (theRun W e cmd s).stdout = TrimSpace tc.Expected) ∧
      (e.executeOne W language code tc s).1.Actual = TrimSpace (theRun W e cmd s).stdout := by
  have hr := executeOne_of_cmd W e language code tc s cmd hcmd
  have hres : runResult (theRun W e cmd s) = ((theRun W e cmd s).stdout, none) := by
    simp [runResult, hto, herr]
  have h := executeOne_of_ok W e language code tc s (by rw [hr, hres])
  rw [hr, hres] at h
  exact h

theorem executeOne_of_unsupported (W : World σ) (e : CodeExecutor) (language code : String)
    (tc : TestCase) (s : σ) (h : buildCmd language code tc.Input = none) :
    e.executeOne W language code tc s =
      ({ Input := tc.Input, Expected := TrimSpace tc.Expected,
         Actual := "unsupported language: " ++ language, Passed := false,
         Runtime := Milliseconds (timeSince (W.now s).1 (W.now (W.now s).2).1) },
        (W.now (W.now s).2).2) := by
  unfold CodeExecutor.executeOne
  simp [runCode_of_none W e language code tc.Input _ h]

end executor

namespace executor

open problem submission

theorem executeOne_functionWorld (f : Cmd → Int → ProcResult) (d : Cmd → Int → Int)
    (e : CodeExecutor) (language code : String) (tc : TestCase) (t t' : Int) :
    (e.executeOne (functionWorld f d) language code tc t).1 =
      (e.executeOne (functionWorld f d) language code tc t').1 := by
  unfold CodeExecutor.executeOne CodeExecutor.runCode
  cases buildCmd language code tc.Input with
  | none => simp [functionWorld, timeSince]
  | some cmd =>
    have ht : ∀ x y : Int, x + y - x = y := fun x y => by omega
    simp only [functionWorld, timeSince, ht]
    cases (runResult (f cmd e.timeout)).2 <;> rfl

theorem Execute_functionWorld (f : Cmd → Int → ProcResult) (d : Cmd → Int → Int)
    (e : CodeExecutor) (language code : String) (tcs : List TestCase) (t t' : Int) :
    (e.Execute (functionWorld f d) language code tcs t).1 =
      tcs.map (fun tc => (e.executeOne (functionWorld f d) language code tc t').1) := by
  induction tcs generalizing t with
  | nil => rfl
  | cons tc rest ih =>
    rw [Execute_cons, List.map_cons, ih,
      executeOne_functionWorld f d e language code tc t t']

end executor

namespace submission

theorem foldl_passed (rs : List TestResult) (a : Int) :
    rs.foldl (fun count r => if r.Passed then count + 1 else count) a =
      a + ((rs.filter (fun r => r.Passed)).length : Int) := by
  induction rs generalizing a with
  | nil => simp
  | cons r rest ih =>
    cases hp : r.Passed with
    | true => simp [List.foldl_cons, hp, ih]; omega
    | false => simp [List.foldl_cons, hp, ih]

end submission

namespace problem

theorem foldl_visible (l acc : List TestCase) :
    l.foldl (fun visible tc => if !tc.IsHidden then visible ++ [tc] else visible) acc =
      acc ++ l.filter (fun tc => !tc.IsHidden) := by
  induction l generalizing acc with
  | nil => simp
  | cons tc rest ih =>
    rw [List.foldl_cons, ih, List.filter_cons]
    cases h : tc.IsHidden <;> simp

theorem VisibleTestCases_eq_filter (p : Problem) :
    p.VisibleTestCases = p.TestCases.filter (fun tc => !tc.IsHidden) := by
  unfold Problem.VisibleTestCases
  rw [foldl_visible]
  rfl

end problem

namespace executor

open problem submission

variable {σ : Type}

theorem executeOne_congr (W : World σ) (e : CodeExecutor) (language code : String)
    (tc tc' : TestCase) (s : σ) (hi : tc.Input = tc'.Input) (he : tc.Expected = tc'.Expected) :
    e.executeOne W language code tc s = e.executeOne W language code tc' s := by
  unfold CodeExecutor.executeOne
  rw [hi, he]

theorem executeOne_Expected (W : World σ) (e : CodeExecutor) (language code : String)
    (tc : TestCase) (s : σ) :
    (e.executeOne W language code tc s).1.Expected = TrimSpace tc.Expected := by
  unfold CodeExecutor.executeOne
  simp only
  split <;> rfl

theorem Execute_map_Input_Expected (W : World σ) (e : CodeExecutor) (language code : String)
    (tcs : List TestCase) (s : σ) :
    (e.Execute W language code tcs s).1.map (fun r => (r.Input, r.Expected)) =
      tcs.map (fun tc => (tc.Input, TrimSpace tc.Expected)) := by
  induction tcs generalizing s with
  | nil => rfl
  | cons tc rest ih => simp [Execute_cons, ih, executeOne_Input, executeOne_Expected]

end executor

namespace submissionApp

open problem submission

variable {σ : Type}

theorem RunCode_ok (A : Ambient σ) (svc : Service σ) (problemID : Nat)
    (language code : String) (s : σ) (p : Problem) (sub : Submission)
    (hfind : (svc.problemRepo.FindByID problemID s).1 = .ok p)
    (h : (svc.RunCode A problemID language code s).1 = .ok sub) :
    ∃ id now t, sub = (NewSubmission id problemID language code now).SetResults
      (svc.executor.Execute language code p.VisibleTestCases t).1 := by
  unfold Service.RunCode at h
  rcases hf : svc.problemRepo.FindByID problemID s with ⟨r, s1⟩
  rw [hf] at hfind h
  simp only at hfind
  subst hfind
  simp only at h
  split at h
  · simp at h
  · simp only [Except.ok.injEq] at h
    exact ⟨_, _, _, h.symm⟩

theorem RunCode_returns (A : Ambient σ) (svc : Service σ) (problemID : Nat)
    (language code : String) (s : σ) (p : Problem)
    (hfind : (svc.problemRepo.FindByID problemID s).1 = .ok p)
    (hcreate : ∀ sub t, (svc.submissionRepo.Create sub t).1 = none) :
    ∃ sub, (svc.RunCode A problemID language code s).1 = .ok sub := by
  unfold Service.RunCode
  rcases hf : svc.problemRepo.FindByID problemID s with ⟨r, s1⟩
  rw [hf] at hfind
  simp only at hfind
  subst hfind
  simp only
  split
  · next err s5 hc =>
    have := congrArg Prod.fst hc
    rw [hcreate] at this
    simp at this
  · exact ⟨_, rfl⟩

theorem SubmitCode_ok (A : Ambient σ) (svc : Service σ) (problemID : Nat)
    (language code : String) (s : σ) (p : Problem) (sub : Submission)
    (hfind : (svc.problemRepo.FindByID problemID s).1 = .ok p)
    (h : (svc.SubmitCode A problemID language code s).1 = .ok sub) :
    ∃ id now t, sub = (NewSubmission id problemID language code now).SetResults
      (svc.executor.Execute language code p.TestCases t).1 := by
  unfold Service.SubmitCode at h
  rcases hf : svc.problemRepo.FindByID problemID s with ⟨r, s1⟩
  rw [hf] at hfind h
  simp only at hfind
  subst hfind
  simp only at h
  split at h
  · simp at h
  · simp only [Except.ok.injEq] at h
    exact ⟨_, _, _, h.symm⟩

theorem SubmitCode_returns (A : Ambient σ) (svc : Service σ) (problemID : Nat)
    (language code : String) (s : σ) (p : Problem)
    (hfind : (svc.problemRepo.FindByID problemID s).1 = .ok p)
    (hcreate : ∀ sub t, (svc.submissionRepo.Create sub t).1 = none) :
    ∃ sub, (svc.SubmitCode A problemID language code s).1 = .ok sub := by
  unfold Service.SubmitCode
  rcases hf : svc.problemRepo.FindByID problemID s with ⟨r, s1⟩
  rw [hf] at hfind
  simp only at hfind
  subst hfind
  simp only
  split
  · next err s5 hc =>
    have := congrArg Prod.fst hc
    rw [hcreate] at this
    simp at this
  · exact ⟨_, rfl⟩

end submissionApp

namespace executor

open problem submission

variable {σ : Type}

theorem executeOne_timeout (W : World σ) (e : CodeExecutor) (language code : String)
    (tc : TestCase) (s : σ) :
    e.executeOne { now := W.now, run := fun cmd _ t => W.run cmd e.timeout t } language code
        tc s = e.executeOne W language code tc s := by
  unfold CodeExecutor.executeOne CodeExecutor.runCode
  cases buildCmd language code tc.Input <;> rfl

end executor

/-! ## Properties of the executor and of the submission entity -/

namespace executor

open problem submission

variable {σ : Type}

/-- C1: for every language, code, test-case list and behaviour of the world,
`Execute` returns exactly one result per test case, and the result at index `i`
carries the `Input` of the test case at index `i`. -/
theorem Execute_length_and_order (W : World σ) (e : CodeExecutor) (language code : String)
    (tcs : List TestCase) (s : σ) :
    (e.Execute W language code tcs s).1.length = tcs.length ∧
      ∀ i : Nat, ((e.Execute W language code tcs s).1[i]?).map (fun r => r.Input) =
        (tcs[i]?).map (fun tc => tc.Input) := by
  have h := Execute_map_Input W e language code tcs s
  refine ⟨?_, fun i => ?_⟩
  · simpa using congrArg List.length h
  · simpa using congrArg (fun l => l[i]?) h

end executor

namespace submission

/-- C2: after `SetResults rs` the status is `StatusAccepted` if and only if every
result of `rs` has `Passed = true`. -/
theorem SetResults_accepted_iff (s : Submission) (rs : List TestResult) :
    (s.SetResults rs).Status = StatusAccepted ↔ ∀ r ∈ rs, r.Passed = true := by
  rw [SetResults_Status]
  exact calculateStatusLoop_accepted_iff rs

end submission

namespace executor

open problem submission

variable {σ : Type}

/-- C3 (as stated, refuted): with two test cases of which the first passes and the
second is killed at the deadline, the second result is the failing
"Time Limit Exceeded" one, yet the status set by `SetResults` is `StatusWrong`
and not `StatusTimeout`. -/
theorem timeout_status_counterexample :
    passThenTimeout.map (fun r => (r.Passed, r.Actual)) =
        [(true, "[0,1]"), (false, "Time Limit Exceeded")] ∧
      (freshSubmission.SetResults passThenTimeout).Status = StatusWrong ∧
      (freshSubmission.SetResults passThenTimeout).Status ≠ StatusTimeout := by
  decide

/-- C3 (amended): whenever the run of one test case of the list exceeds the deadline,
whatever the runs before and after it do, the status set by `SetResults` over the
results of `Execute` is `StatusWrong`. -/
theorem timeout_status_is_wrong (W : World σ) (e : CodeExecutor) (language code : String)
    (pre post : List TestCase) (tc : TestCase) (s : σ) (sub : Submission) (cmd : Cmd)
    (hcmd : buildCmd language code tc.Input = some cmd)
    (hto : (theRun W e cmd (e.Execute W language code pre s).2).deadlineExceeded = true) :
    (sub.SetResults (e.Execute W language code (pre ++ tc :: post) s).1).Status =
      StatusWrong := by
  rw [SetResults_Status]
  refine calculateStatusLoop_wrong_of_mem _ _
    (mem_Execute_append_cons W e language code pre post tc s) ?_
  refine (executeOne_of_err W e language code tc _ "Time Limit Exceeded" ?_).1
  rw [executeOne_of_cmd W e language code tc _ cmd hcmd]
  simp [runResult, hto]

/-- C3 (amended), at the two-sum case run twice, the second run killed at the
deadline. -/
theorem timeout_status_is_wrong_witness :
    buildCmd "python" "while True: pass" twoSumCase.Input =
        some ⟨"python3", ["-c", wrapPython "while True: pass" twoSumCase.Input], none⟩ ∧
      (theRun scriptWorld (New 0)
          ⟨"python3", ["-c", wrapPython "while True: pass" twoSumCase.Input], none⟩
          ((New 0).Execute scriptWorld "python" "while True: pass" [twoSumCase]
            [goodRun, timedOutRun]).2).deadlineExceeded = true ∧
      (freshSubmission.SetResults
          ((New 0).Execute scriptWorld "python" "while True: pass"
            ([twoSumCase] ++ twoSumCase :: []) [goodRun, timedOutRun]).1).Status =
        StatusWrong :=
  ⟨rfl, by decide,
    timeout_status_is_wrong scriptWorld (New 0) "python" "while True: pass" [twoSumCase] []
      twoSumCase [goodRun, timedOutRun] freshSubmission _ rfl (by decide)⟩

/-- C4 (as stated, refuted): with two test cases of which the first passes and the
second exits with status 1 after writing to standard error, no run timing out, the
status set by `SetResults` is `StatusWrong` and not `StatusError`. -/
theorem crash_status_counterexample :
    passThenCrash.map (fun r => (r.Passed, r.Actual)) =
        [(true, "[0,1]"), (false, "Traceback: division by zero\n")] ∧
      (freshSubmission.SetResults passThenCrash).Status = StatusWrong ∧
      (freshSubmission.SetResults passThenCrash).Status ≠ StatusError := by
  decide

/-- C4 (amended): whenever the run of one test case of the list does not time out and
ends with an error of `cmd.Run()` (such as a non-zero exit) and a non-empty standard
error, whatever the other runs do, the status set by `SetResults` over the results of
`Execute` is `StatusWrong`. -/
theorem crash_status_is_wrong (W : World σ) (e : CodeExecutor) (language code : String)
    (pre post : List TestCase) (tc : TestCase) (s : σ) (sub : Submission) (cmd : Cmd)
    (err : String)
    (hcmd : buildCmd language code tc.Input = some cmd)
    (hto : (theRun W e cmd (e.Execute W language code pre s).2).deadlineExceeded = false)
    (herr : (theRun W e cmd (e.Execute W language code pre s).2).runErr = some err)
    (hstderr : (theRun W e cmd (e.Execute W language code pre s).2).stderr ≠ "") :
    (sub.SetResults (e.Execute W language code (pre ++ tc :: post) s).1).Status =
      StatusWrong := by
  rw [SetResults_Status]
  refine calculateStatusLoop_wrong_of_mem _ _
    (mem_Execute_append_cons W e language code pre post tc s) ?_
  refine (executeOne_of_err W e language code tc _
    (theRun W e cmd (e.Execute W language code pre s).2).stderr ?_).1
  rw [executeOne_of_cmd W e language code tc _ cmd hcmd]
  simp [runResult, hto, herr, hstderr]

/-- C4 (amended), at the two-sum case run twice, the second run crashing. -/
theorem crash_status_is_wrong_witness :
    buildCmd "python" "def twoSum(a, t): return 1 // 0" twoSumCase.Input =
        some ⟨"python3",
          ["-c", wrapPython "def twoSum(a, t): return 1 // 0" twoSumCase.Input], none⟩ ∧
      theRun scriptWorld (New 0)
          ⟨"python3",
            ["-c", wrapPython "def twoSum(a, t): return 1 // 0" twoSumCase.Input], none⟩
          ((New 0).Execute scriptWorld "python" "def twoSum(a, t): return 1 // 0"
            [twoSumCase] [goodRun, crashedRun]).2 = crashedRun ∧
      (freshSubmission.SetResults
          ((New 0).Execute scriptWorld "python" "def twoSum(a, t): return 1 // 0"
            ([twoSumCase] ++ twoSumCase :: []) [goodRun, crashedRun]).1).Status =
        StatusWrong :=
  ⟨rfl, by decide,
    crash_status_is_wrong scriptWorld (New 0) "python" "def twoSum(a, t): return 1 // 0"
      [twoSumCase] [] twoSumCase [goodRun, crashedRun] freshSubmission _ "exit status 1"
      rfl (by decide) (by decide) (by decide)⟩

end executor

namespace submission

/-- C5 (as stated, refuted): for the two results with runtimes `2^63 - 1` and `1` the
runtime set by `SetResults` is `-2^63`, while the sum of the runtimes is `2^63`. -/
theorem SetResults_Runtime_counterexample :
    (executor.freshSubmission.SetResults
        [⟨"a", "b", "b", true, 9223372036854775807⟩, ⟨"c", "d", "d", true, 1⟩]).Runtime =
        -9223372036854775808 ∧
      (executor.freshSubmission.SetResults
        [⟨"a", "b", "b", true, 9223372036854775807⟩, ⟨"c", "d", "d", true, 1⟩]).Runtime ≠
        (([⟨"a", "b", "b", true, 9223372036854775807⟩, ⟨"c", "d", "d", true, 1⟩] :
          List TestResult).map (fun r => r.Runtime)).sum := by
  decide

/-- C5 (amended): after `SetResults rs` the runtime is the sum of the runtimes of `rs`
reduced to the 64-bit range of Go's `int`; it is the exact sum whenever that sum lies
in the range, and `0` for the empty list. -/
theorem SetResults_Runtime (s : Submission) (rs : List TestResult) :
    (s.SetResults rs).Runtime = wrapInt ((rs.map (fun r => r.Runtime)).sum) ∧
      (-9223372036854775808 ≤ (rs.map (fun r => r.Runtime)).sum ∧
          (rs.map (fun r => r.Runtime)).sum < 9223372036854775808 →
        (s.SetResults rs).Runtime = (rs.map (fun r => r.Runtime)).sum) ∧
      (s.SetResults []).Runtime = 0 := by
  have h : (s.SetResults rs).Runtime = wrapInt ((rs.map (fun r => r.Runtime)).sum) := by
    have := foldl_runtime rs 0
    simpa [Submission.SetResults, Submission.calculateTotalRuntime, wrapInt] using this
  exact ⟨h, fun hr => by rw [h, wrapInt_of_inRange _ hr.1 hr.2], rfl⟩

/-- C5 (amended), at two results with runtimes 2 and 3. -/
theorem SetResults_Runtime_witness :
    (executor.freshSubmission.SetResults
        [⟨"a", "b", "b", true, 2⟩, ⟨"c", "d", "x", false, 3⟩]).Runtime = 5 :=
  (SetResults_Runtime executor.freshSubmission
    [⟨"a", "b", "b", true, 2⟩, ⟨"c", "d", "x", false, 3⟩]).2.1 (by decide)

end submission

namespace executor

open problem submission

variable {σ τ : Type}

/-- C6: when the run of a test case neither times out nor returns an error, the result
that `Execute` stores for it has `Passed = true` if and only if the trimmed standard
output equals the trimmed expected text, as strings. -/
theorem passed_iff_trimmed_equal (W : World σ) (e : CodeExecutor) (language code : String)
    (pre post : List TestCase) (tc : TestCase) (s : σ) (cmd : Cmd)
    (hcmd : buildCmd language code tc.Input = some cmd)
    (hto : (theRun W e cmd (e.Execute W language code pre s).2).deadlineExceeded = false)
    (herr : (theRun W e cmd (e.Execute W language code pre s).2).runErr = none) :
    ∃ r, (e.Execute W language code (pre ++ tc :: post) s).1[pre.length]? = some r ∧
      (r.Passed = true ↔
        TrimSpace (theRun W e cmd (e.Execute W language code pre s).2).stdout =
          TrimSpace tc.Expected) := by
  refine ⟨_, Execute_getElem?_mid W e language code pre post tc s, ?_⟩
  rw [(executeOne_of_success W e language code tc _ cmd hcmd hto herr).1]
  simp

/-- C6, at the output `1,2` against the expected text `1, 2`: the result does not
pass; the output `[0,1]` followed by a line end against the expected text `[0,1]`
passes. -/
theorem passed_iff_trimmed_equal_witness :
    buildCmd "python" "def f(): pass" spacedCase.Input =
        some (pythonCmd "def f(): pass" spacedCase.Input) ∧
      theRun scriptWorld (New 0) (pythonCmd "def f(): pass" spacedCase.Input)
          ((New 0).Execute scriptWorld "python" "def f(): pass" [] [compactRun]).2 =
        compactRun ∧
      (∃ r, ((New 0).Execute scriptWorld "python" "def f(): pass"
            ([] ++ spacedCase :: []) [compactRun]).1[([] : List TestCase).length]? = some r ∧
          (r.Passed = true ↔ TrimSpace "1,2" = TrimSpace spacedCase.Expected)) ∧
      TrimSpace "1,2" ≠ TrimSpace "1, 2" ∧
      ((New 0).Execute scriptWorld "python" "def f(): pass" [spacedCase]
          [compactRun]).1.map (fun r => r.Passed) = [false] ∧
      TrimSpace goodRun.stdout = "[0,1]" ∧
      ((New 0).Execute scriptWorld "python" "def f(): pass" [twoSumCase]
          [goodRun]).1.map (fun r => (r.Passed, r.Actual)) = [(true, "[0,1]")] :=
  ⟨rfl, by decide,
    passed_iff_trimmed_equal scriptWorld (New 0) "python" "def f(): pass" [] [] spacedCase
      [compactRun] (pythonCmd "def f(): pass" spacedCase.Input) rfl (by decide) (by decide),
    by decide, by decide, by decide, by decide⟩

/-- C7: for two successful runs such that the standard output of the second is the
standard output of the first between two strings of white space, and the expected text
of the second test case is the expected text of the first between two strings of white
space, the two results that `Execute` stores have the same `Passed` flag. -/
theorem passed_invariant_under_padding (W : World σ) (W' : World τ) (e e' : CodeExecutor)
    (language code language' code' : String) (pre post pre' post' : List TestCase)
    (tc tc' : TestCase) (s : σ) (s' : τ) (cmd cmd' : Cmd) (a b c d : String)
    (ha : ∀ ch ∈ a.data, isSpace ch = true) (hb : ∀ ch ∈ b.data, isSpace ch = true)
    (hc : ∀ ch ∈ c.data, isSpace ch = true) (hd : ∀ ch ∈ d.data, isSpace ch = true)
    (hcmd : buildCmd language code tc.Input = some cmd)
    (hcmd' : buildCmd language' code' tc'.Input = some cmd')
    (hto : (theRun W e cmd (e.Execute W language code pre s).2).deadlineExceeded = false)
    (herr : (theRun W e cmd (e.Execute W language code pre s).2).runErr = none)
    (hto' : (theRun W' e' cmd' (e'.Execute W' language' code' pre' s').2).deadlineExceeded
      = false)
    (herr' : (theRun W' e' cmd' (e'.Execute W' language' code' pre' s').2).runErr = none)
    (hout : (theRun W' e' cmd' (e'.Execute W' language' code' pre' s').2).stdout =
      a ++ (theRun W e cmd (e.Execute W language code pre s).2).stdout ++ b)
    (hexp : tc'.Expected = c ++ tc.Expected ++ d) :
    ∃ r r', (e.Execute W language code (pre ++ tc :: post) s).1[pre.length]? = some r ∧
      (e'.Execute W' language' code' (pre' ++ tc' :: post') s').1[pre'.length]? = some r' ∧
      r'.Passed = r.Passed := by
  refine ⟨_, _, Execute_getElem?_mid W e language code pre post tc s,
    Execute_getElem?_mid W' e' language' code' pre' post' tc' s', ?_⟩
  rw [(executeOne_of_success W e language code tc _ cmd hcmd hto herr).1,
    (executeOne_of_success W' e' language' code' tc' _ cmd' hcmd' hto' herr').1,
    hout, hexp, TrimSpace_pad _ _ _ ha hb, TrimSpace_pad _ _ _ hc hd]

/-- C7, at the output `1,2` and the expected text `1,2`, against the same output and
expected text with blanks, tabs and line ends around them. -/
theorem passed_invariant_under_padding_witness :
    theRun scriptWorld (New 0) (pythonCmd "def f(): pass" paddedCase.Input)
          ((New 0).Execute scriptWorld "python" "def f(): pass" [] [paddedRun]).2 =
        paddedRun ∧
      paddedRun.stdout = "\n " ++ compactRun.stdout ++ "\t\n" ∧
      paddedCase.Expected = "  " ++ compactCase.Expected ++ " \n" ∧
      ∃ r r', ((New 0).Execute scriptWorld "python" "def f(): pass"
            ([] ++ compactCase :: []) [compactRun]).1[([] : List TestCase).length]? = some r ∧
          ((New 0).Execute scriptWorld "python" "def f(): pass"
            ([] ++ paddedCase :: []) [paddedRun]).1[([] : List TestCase).length]? = some r' ∧
          r'.Passed = r.Passed :=
  ⟨by decide, by decide, by decide,
    passed_invariant_under_padding scriptWorld scriptWorld (New 0) (New 0)
      "python" "def f(): pass" "python" "def f(): pass" [] [] [] [] compactCase paddedCase
      [compactRun] [paddedRun] (pythonCmd "def f(): pass" compactCase.Input)
      (pythonCmd "def f(): pass" paddedCase.Input) "\n " "\t\n" "  " " \n"
      (by decide) (by decide) (by decide) (by decide) rfl rfl (by decide) (by decide)
      (by decide) (by decide) (by decide) (by decide)⟩

end executor

namespace executor

open problem submission

variable {σ : Type}

/-- C8: when the run of a test case exceeds the deadline, whatever error, standard
output and standard error the process left and whatever the expected text is, the
result that `Execute` stores for it has `Passed = false` and
`Actual = "Time Limit Exceeded"`. -/
theorem timeout_result (W : World σ) (e : CodeExecutor) (language code : String)
    (pre post : List TestCase) (tc : TestCase) (s : σ) (cmd : Cmd)
    (hcmd : buildCmd language code tc.Input = some cmd)
    (hto : (theRun W e cmd (e.Execute W language code pre s).2).deadlineExceeded = true) :
    ∃ r, (e.Execute W language code (pre ++ tc :: post) s).1[pre.length]? = some r ∧
      r.Passed = false ∧ r.Actual = "Time Limit Exceeded" := by
  refine ⟨_, Execute_getElem?_mid W e language code pre post tc s, ?_⟩
  refine executeOne_of_err W e language code tc _ "Time Limit Exceeded" ?_
  rw [executeOne_of_cmd W e language code tc _ cmd hcmd]
  simp [runResult, hto]

/-- C8, at a test case whose expected text is itself `Time Limit Exceeded`. -/
theorem timeout_result_witness :
    buildCmd "python" "while True: pass" timeoutTextCase.Input =
        some (pythonCmd "while True: pass" timeoutTextCase.Input) ∧
      (theRun scriptWorld (New 0) (pythonCmd "while True: pass" timeoutTextCase.Input)
          ((New 0).Execute scriptWorld "python" "while True: pass" [] [timedOutRun]).2
        ).deadlineExceeded = true ∧
      ∃ r, ((New 0).Execute scriptWorld "python" "while True: pass"
            ([] ++ timeoutTextCase :: []) [timedOutRun]).1[([] : List TestCase).length]? =
          some r ∧ r.Passed = false ∧ r.Actual = "Time Limit Exceeded" :=
  ⟨rfl, by decide,
    timeout_result scriptWorld (New 0) "python" "while True: pass" [] [] timeoutTextCase
      [timedOutRun] (pythonCmd "while True: pass" timeoutTextCase.Input) rfl (by decide)⟩

/-- C9 (as stated, refuted): a run that does not time out, exits with status 0 and
writes a warning to standard error gives a result with `Passed = true` whose `Actual`
is the trimmed standard output, not the text of standard error. -/
theorem stderr_on_success_counterexample :
    theRun scriptWorld (New 0) (pythonCmd "def twoSum(a, t): return [0, 1]" twoSumCase.Input)
        [warnedRun] = warnedRun ∧
      warnedRun.deadlineExceeded = false ∧ warnedRun.stderr ≠ "" ∧
      ((New 0).Execute scriptWorld "python" "def twoSum(a, t): return [0, 1]" [twoSumCase]
          [warnedRun]).1.map (fun r => (r.Passed, r.Actual)) = [(true, "[0,1]")] := by
  decide

/-- C9 (amended): when the run of a test case does not time out, the result that
`Execute` stores for it is decided by the error of `cmd.Run()` alone. If there is an
error (a non-zero exit, or a process that could not be started), the result has
`Passed = false` and its `Actual` is the text of standard error when that is not empty,
and the text of the error otherwise. If there is none (exit status 0), the result is
judged by output comparison, whatever was written to standard error: `Passed` holds
exactly when the trimmed standard output equals the trimmed expected text, and `Actual`
is the trimmed standard output. -/
theorem run_error_result (W : World σ) (e : CodeExecutor) (language code : String)
    (pre post : List TestCase) (tc : TestCase) (s : σ) (cmd : Cmd)
    (hcmd : buildCmd language code tc.Input = some cmd)
    (hto : (theRun W e cmd (e.Execute W language code pre s).2).deadlineExceeded = false) :
    ∃ r, (e.Execute W language code (pre ++ tc :: post) s).1[pre.length]? = some r ∧
      (∀ err, (theRun W e cmd (e.Execute W language code pre s).2).runErr = some err →
        r.Passed = false ∧
        ((theRun W e cmd (e.Execute W language code pre s).2).stderr ≠ "" →
          r.Actual = (theRun W e cmd (e.Execute W language code pre s).2).stderr) ∧
        ((theRun W e cmd (e.Execute W language code pre s).2).stderr = "" →
          r.Actual = err)) ∧
      ((theRun W e cmd (e.Execute W language code pre s).2).runErr = none →
        (r.Passed = true ↔
          TrimSpace (theRun W e cmd (e.Execute W language code pre s).2).stdout =
            TrimSpace tc.Expected) ∧
        r.Actual = TrimSpace (theRun W e cmd (e.Execute W language code pre s).2).stdout) := by
  refine ⟨_, Execute_getElem?_mid W e language code pre post tc s, ?_, ?_⟩
  · intro err herr
    have hr := executeOne_of_cmd W e language code tc (e.Execute W language code pre s).2
      cmd hcmd
    by_cases hs : (theRun W e cmd (e.Execute W language code pre s).2).stderr = ""
    · have h := executeOne_of_err W e language code tc _ err
        (by rw [hr]; simp [runResult, hto, herr, hs])
      exact ⟨h.1, fun hne => absurd hs hne, fun _ => h.2⟩
    · have h := executeOne_of_err W e language code tc _
        (theRun W e cmd (e.Execute W language code pre s).2).stderr
        (by rw [hr]; simp [runResult, hto, herr, hs])
      exact ⟨h.1, fun _ => h.2, fun he => absurd he hs⟩
  · intro hnone
    have h := executeOne_of_success W e language code tc _ cmd hcmd hto hnone
    exact ⟨by rw [h.1]; simp, h.2⟩

/-- C9 (amended), at a run that exits with status 1 after writing to standard error,
which fails with that text, and at a run that exits with status 0 after a warning on
standard error, which passes on its output. -/
theorem run_error_result_witness :
    theRun scriptWorld (New 0)
          (pythonCmd "def twoSum(a, t): return 1 // 0" twoSumCase.Input)
          ((New 0).Execute scriptWorld "python" "def twoSum(a, t): return 1 // 0" []
            [crashedRun]).2 = crashedRun ∧
      (∃ r, ((New 0).Execute scriptWorld "python" "def twoSum(a, t): return 1 // 0"
            ([] ++ twoSumCase :: []) [crashedRun]).1[([] : List TestCase).length]? = some r ∧
          r.Passed = false ∧ r.Actual = "Traceback: division by zero\n") ∧
      theRun scriptWorld (New 0)
          (pythonCmd "def twoSum(a, t): return [0, 1]" twoSumCase.Input)
          ((New 0).Execute scriptWorld "python" "def twoSum(a, t): return [0, 1]" []
            [warnedRun]).2 = warnedRun ∧
      warnedRun.stderr ≠ "" ∧
      ∃ r, ((New 0).Execute scriptWorld "python" "def twoSum(a, t): return [0, 1]"
            ([] ++ twoSumCase :: []) [warnedRun]).1[([] : List TestCase).length]? = some r ∧
          r.Passed = true ∧ r.Actual = "[0,1]" :=
  ⟨by decide,
    (run_error_result scriptWorld (New 0) "python" "def twoSum(a, t): return 1 // 0" [] []
      twoSumCase [crashedRun] (pythonCmd "def twoSum(a, t): return 1 // 0" twoSumCase.Input)
      rfl (by decide)).imp
      (fun _ h => ⟨h.1, (h.2.1 "exit status 1" (by decide)).1,
        (h.2.1 "exit status 1" (by decide)).2.1 (by decide)⟩),
    by decide, by decide,
    (run_error_result scriptWorld (New 0) "python" "def twoSum(a, t): return [0, 1]" [] []
      twoSumCase [warnedRun] (pythonCmd "def twoSum(a, t): return [0, 1]" twoSumCase.Input)
      rfl (by decide)).imp
      (fun _ h => ⟨h.1, (h.2.2 (by decide)).1.2 (by decide),
        (h.2.2 (by decide)).2.trans (by decide)⟩)⟩

/-- C10 (as stated, refuted): for the language `ruby` and one test case, `Execute`
returns a list of one failing result, whose `Actual` is the text of the error. -/
theorem unsupported_language_counterexample :
    ((New 0).Execute scriptWorld "ruby" "def two_sum(a, t) = [0, 1]" [twoSumCase] []).1 =
      [{ Input := "[2,7,11,15],9", Expected := "[0,1]",
         Actual := "unsupported language: ruby", Passed := false, Runtime := 0 }] := by
  decide

/-- C10 (amended): for a language other than `javascript`, `python` and `go`, `Execute`
returns one result per test case, each of them with `Passed = false` and
`Actual = "unsupported language: <language>"`, and it starts no process: the outcome is
the same whatever `cmd.Run()` would do. -/
theorem unsupported_language_results (W : World σ) (e : CodeExecutor)
    (language code : String) (tcs : List TestCase) (s : σ)
    (hjs : language ≠ "javascript") (hpy : language ≠ "python") (hgo : language ≠ "go") :
    (e.Execute W language code tcs s).1.length = tcs.length ∧
      (∀ r ∈ (e.Execute W language code tcs s).1,
        r.Passed = false ∧ r.Actual = "unsupported language: " ++ language) ∧
      ∀ run' : Cmd → Int → σ → ProcResult × σ,
        e.Execute { now := W.now, run := run' } language code tcs s =
          e.Execute W language code tcs s := by
  have hnone : ∀ input, buildCmd language code input = none := fun input =>
    (buildCmd_eq_none_iff language code input).2 ⟨hjs, hpy, hgo⟩
  refine ⟨Execute_length W e language code tcs s, ?_, ?_⟩
  · induction tcs generalizing s with
    | nil => intro r hr; cases hr
    | cons tc rest ih =>
      intro r hr
      rw [Execute_cons, List.mem_cons] at hr
      rcases hr with rfl | hr
      · rw [executeOne_of_unsupported W e language code tc s (hnone _)]
        exact ⟨rfl, rfl⟩
      · exact ih _ r hr
  · intro run'
    induction tcs generalizing s with
    | nil => rfl
    | cons tc rest ih =>
      rw [Execute_cons, Execute_cons, executeOne_of_unsupported _ e language code tc s (hnone _),
        executeOne_of_unsupported W e language code tc s (hnone _)]
      simp only [ih]

/-- C10 (amended), at the language `ruby` and two test cases. -/
theorem unsupported_language_results_witness :
    ((New 0).Execute scriptWorld "ruby" "def two_sum(a, t) = [0, 1]"
        [twoSumCase, spacedCase] []).1.length = [twoSumCase, spacedCase].length ∧
      (∀ r ∈ ((New 0).Execute scriptWorld "ruby" "def two_sum(a, t) = [0, 1]"
          [twoSumCase, spacedCase] []).1,
        r.Passed = false ∧ r.Actual = "unsupported language: " ++ "ruby") :=
  ⟨(unsupported_language_results scriptWorld (New 0) "ruby" "def two_sum(a, t) = [0, 1]"
      [twoSumCase, spacedCase] [] (by decide) (by decide) (by decide)).1,
    (unsupported_language_results scriptWorld (New 0) "ruby" "def two_sum(a, t) = [0, 1]"
      [twoSumCase, spacedCase] [] (by decide) (by decide) (by decide)).2.1⟩

end executor

namespace executor

open problem submission

variable {σ : Type}

/-- C11 (as stated, refuted): for the supported language `python`, a run that exits
with status 1 after writing `unsupported language: python` to standard error makes
`runCode` fail with exactly the error text of the unsupported case. -/
theorem runCode_error_text_counterexample :
    ((New 0).runCode scriptWorld "python" "raise SystemExit(1)" "[]" [spoofedRun]).1 =
        ("", some ("unsupported language: " ++ "python")) ∧
      ¬ ("python" ≠ "javascript" ∧ "python" ≠ "python" ∧ "python" ≠ "go") := by
  decide

/-- C11 (amended): when the language is none of `javascript`, `python` and `go`,
`runCode` returns the empty output and the error `unsupported language: <language>`
with the world untouched, whatever the world is; when it is one of the three, a command
is built and run, and the result is the one the outcome of that run gives. -/
theorem runCode_unsupported (W : World σ) (e : CodeExecutor) (language code input : String)
    (s : σ) :
    (language ≠ "javascript" ∧ language ≠ "python" ∧ language ≠ "go" →
        e.runCode W language code input s =
          (("", some ("unsupported language: " ++ language)), s)) ∧
      (¬ (language ≠ "javascript" ∧ language ≠ "python" ∧ language ≠ "go") →
        ∃ cmd, buildCmd language code input = some cmd ∧
          e.runCode W language code input s =
            (runResult (W.run cmd e.timeout s).1, (W.run cmd e.timeout s).2)) := by
  constructor
  · intro h
    exact runCode_of_none W e language code input s
      ((buildCmd_eq_none_iff language code input).2 h)
  · intro h
    cases hb : buildCmd language code input with
    | none => exact absurd ((buildCmd_eq_none_iff language code input).1 hb) h
    | some cmd => exact ⟨cmd, rfl, runCode_of_cmd W e language code input cmd s hb⟩

/-- C11 (amended), at the language `ruby`: the error is returned and the scripted run
is still pending afterwards. -/
theorem runCode_unsupported_witness :
    (New 0).runCode scriptWorld "ruby" "puts 1" "[]" [goodRun] =
      (("", some ("unsupported language: " ++ "ruby")), [goodRun]) :=
  (runCode_unsupported scriptWorld (New 0) "ruby" "puts 1" "[]" [goodRun]).1
    ⟨by decide, by decide, by decide⟩

/-- C12: whatever the run of a test case gives (success, wrong output, process error,
timeout, unsupported language), the result that `Execute` stores for it has as
`Runtime` the milliseconds between the clock reading before `runCode` and the one after
it, as `Input` the input of the test case and as `Expected` its trimmed expected text;
when the difference of the two readings fits a `Duration`, `Runtime` is that difference
in nanoseconds divided by one million, truncated. -/
theorem runtime_is_measured (W : World σ) (e : CodeExecutor) (language code : String)
    (pre post : List TestCase) (tc : TestCase) (s : σ) :
    ∃ r, (e.Execute W language code (pre ++ tc :: post) s).1[pre.length]? = some r ∧
      r.Runtime = Milliseconds (timeSince (W.now (e.Execute W language code pre s).2).1
        (W.now (e.runCode W language code tc.Input
          (W.now (e.Execute W language code pre s).2).2).2).1) ∧
      r.Input = tc.Input ∧ r.Expected = TrimSpace tc.Expected ∧
      (-9223372036854775808 ≤
          (W.now (e.runCode W language code tc.Input
            (W.now (e.Execute W language code pre s).2).2).2).1 -
            (W.now (e.Execute W language code pre s).2).1 →
        (W.now (e.runCode W language code tc.Input
            (W.now (e.Execute W language code pre s).2).2).2).1 -
            (W.now (e.Execute W language code pre s).2).1 ≤ 9223372036854775807 →
        r.Runtime = Int.tdiv
          ((W.now (e.runCode W language code tc.Input
            (W.now (e.Execute W language code pre s).2).2).2).1 -
            (W.now (e.Execute W language code pre s).2).1) 1000000) := by
  refine ⟨_, Execute_getElem?_mid W e language code pre post tc s, ?_⟩
  have hclamp : ∀ x : Int, -9223372036854775808 ≤ x → x ≤ 9223372036854775807 →
      clampInt64 x = x := by
    intro x hlo hhi
    unfold clampInt64
    rw [if_neg (by omega), if_neg (by omega)]
  unfold CodeExecutor.executeOne
  simp only
  split <;>
    exact ⟨rfl, rfl, rfl, fun hlo hhi => by
      simp only [Milliseconds, timeSince, hclamp _ hlo hhi]⟩

/-- C12, at a run that takes seven milliseconds on a clock that reads one second
before it: the stored `Runtime` is 7, also for an unsupported language, where no time
passes between the two readings and it is 0. -/
theorem runtime_is_measured_witness :
    (∃ r, ((New 0).Execute (functionWorld (fun _ _ => timedOutRun) sevenMs) "python"
          "while True: pass" ([] ++ twoSumCase :: []) 1000000000).1[
            ([] : List TestCase).length]? = some r ∧ r.Runtime = 7) ∧
      ((New 0).Execute (functionWorld (fun _ _ => timedOutRun) sevenMs) "python"
        "while True: pass" [twoSumCase, secondCase] 1000000000).1.map
          (fun r => (r.Passed, r.Runtime)) = [(false, 7), (false, 7)] ∧
      ((New 0).Execute (functionWorld (fun _ _ => timedOutRun) sevenMs) "ruby"
        "loop do end" [twoSumCase] 1000000000).1.map
          (fun r => (r.Passed, r.Runtime)) = [(false, 0)] :=
  ⟨(runtime_is_measured (functionWorld (fun _ _ => timedOutRun) sevenMs) (New 0) "python"
      "while True: pass" [] [] twoSumCase 1000000000).imp
      (fun _ h => ⟨h.1, (h.2.2.2.2 (by decide) (by decide)).trans (by decide)⟩),
    by decide, by decide⟩

end executor

namespace executor

open problem submission

/-- C13: when the runner is a function of the command, hence of language, code and
input, the results of `Execute` on `a ++ b` are the results on `a` followed by the
results on `b`, from any two clock values; and each result is the one its own test
case gives alone, so a test case that fails changes no other result and the test cases
after it are still run and reported. -/
theorem Execute_append_functionWorld (f : Cmd → Int → ProcResult) (d : Cmd → Int → Int)
    (e : CodeExecutor) (language code : String) (a b : List TestCase) (t t' : Int) :
    (e.Execute (functionWorld f d) language code (a ++ b) t).1 =
        (e.Execute (functionWorld f d) language code a t).1 ++
          (e.Execute (functionWorld f d) language code b t').1 ∧
      (e.Execute (functionWorld f d) language code (a ++ b) t).1 =
        (a ++ b).flatMap (fun tc => (e.Execute (functionWorld f d) language code [tc] t').1) := by
  constructor
  · rw [Execute_functionWorld f d e language code (a ++ b) t t,
      Execute_functionWorld f d e language code a t t,
      Execute_functionWorld f d e language code b t' t, List.map_append]
  · rw [Execute_functionWorld f d e language code (a ++ b) t t']
    generalize a ++ b = tcs
    induction tcs with
    | nil => rfl
    | cons tc rest ih => rw [List.map_cons, List.flatMap_cons, ← ih]; rfl

set_option maxRecDepth 100000 in
/-- C13, at a runner that crashes on the first test case and takes seven milliseconds
for every run: the second test case is run, passes, and has the result it has alone. -/
theorem Execute_append_functionWorld_witness :
    ((New 0).Execute (functionWorld crashOnTwoSum sevenMs) "python"
        "def twoSum(a, t): return [0, 1]" ([twoSumCase] ++ [secondCase]) 0).1 =
        ((New 0).Execute (functionWorld crashOnTwoSum sevenMs) "python"
          "def twoSum(a, t): return [0, 1]" [twoSumCase] 0).1 ++
          ((New 0).Execute (functionWorld crashOnTwoSum sevenMs) "python"
            "def twoSum(a, t): return [0, 1]" [secondCase] 0).1 ∧
      ((New 0).Execute (functionWorld crashOnTwoSum sevenMs) "python"
        "def twoSum(a, t): return [0, 1]" ([twoSumCase] ++ [secondCase]) 0).1.map
          (fun r => (r.Passed, r.Runtime)) = [(false, 7), (true, 7)] :=
  ⟨(Execute_append_functionWorld crashOnTwoSum sevenMs (New 0) "python"
      "def twoSum(a, t): return [0, 1]" [twoSumCase] [secondCase] 0 0).1,
    by decide⟩

end executor

namespace submission

/-- C14: for every submission `PassedCount` is the number of results with
`Passed = true` and `TotalCount` is the number of results, so that
`0 ≤ PassedCount ≤ TotalCount`; with two results of which exactly one passed they are 1
and 2. -/
theorem PassedCount_TotalCount (s : Submission) :
    s.PassedCount = ((s.Results.filter (fun r => r.Passed)).length : Int) ∧
      s.TotalCount = (s.Results.length : Int) ∧
      0 ≤ s.PassedCount ∧ s.PassedCount ≤ s.TotalCount ∧
      ∀ r1 r2 : TestResult, s.Results = [r1, r2] → r1.Passed ≠ r2.Passed →
        s.PassedCount = 1 ∧ s.TotalCount = 2 := by
  have hp : s.PassedCount = ((s.Results.filter (fun r => r.Passed)).length : Int) := by
    have := foldl_passed s.Results 0
    simpa [Submission.PassedCount] using this
  have hle := List.length_filter_le (fun r : TestResult => r.Passed) s.Results
  refine ⟨hp, rfl, ?_, ?_, ?_⟩
  · rw [hp]; omega
  · rw [hp]; unfold Submission.TotalCount; omega
  · intro r1 r2 hrs hne
    rw [hp]
    unfold Submission.TotalCount
    rw [hrs]
    cases h1 : r1.Passed <;> cases h2 : r2.Passed <;> simp_all

/-- C14, at the results of a passing run followed by a crashing one. -/
theorem PassedCount_TotalCount_witness :
    (executor.freshSubmission.SetResults executor.passThenCrash).PassedCount = 1 ∧
      (executor.freshSubmission.SetResults executor.passThenCrash).TotalCount = 2 :=
  (PassedCount_TotalCount (executor.freshSubmission.SetResults executor.passThenCrash)).2.2.2.2
    ⟨"[2,7,11,15],9", "[0,1]", "[0,1]", true, 0⟩
    ⟨"[2,7,11,15],9", "[0,1]", "Traceback: division by zero\n", false, 0⟩
    (by decide) (by decide)

end submission

namespace problem

/-- C15: for every problem `VisibleTestCases` is the list of the test cases whose
`IsHidden` is false, in their order in `TestCases` and unaltered: it is the filter of
`TestCases` by that condition, a sublist of `TestCases`, and holds exactly the test
cases of the problem that are not hidden. -/
theorem VisibleTestCases_spec (p : Problem) :
    p.VisibleTestCases = p.TestCases.filter (fun tc => !tc.IsHidden) ∧
      List.Sublist p.VisibleTestCases p.TestCases ∧
      ∀ tc, tc ∈ p.VisibleTestCases ↔ tc ∈ p.TestCases ∧ tc.IsHidden = false := by
  rw [VisibleTestCases_eq_filter]
  refine ⟨rfl, List.filter_sublist _, fun tc => ?_⟩
  simp [List.mem_filter]

end problem

namespace executor

open problem submission

variable {σ : Type}

/-- C17: two lists of test cases that agree, index by index, on `Input` and `Expected`
give the same results and the same final state under `Execute`, whatever their `ID`,
`ProblemID` and `IsHidden` are. -/
theorem Execute_ignores_hidden (W : World σ) (e : CodeExecutor) (language code : String)
    (tcs tcs' : List TestCase) (s : σ)
    (h : tcs.map (fun tc => (tc.Input, tc.Expected)) =
      tcs'.map (fun tc => (tc.Input, tc.Expected))) :
    e.Execute W language code tcs s = e.Execute W language code tcs' s := by
  induction tcs generalizing tcs' s with
  | nil =>
    cases tcs' with
    | nil => rfl
    | cons tc' rest' => simp at h
  | cons tc rest ih =>
    cases tcs' with
    | nil => simp at h
    | cons tc' rest' =>
      simp only [List.map_cons, List.cons.injEq, Prod.mk.injEq] at h
      rw [Execute_cons, Execute_cons, executeOne_congr W e language code tc tc' s h.1.1 h.1.2,
        ih rest' _ h.2]

/-- C17, at the two-sum case against a hidden copy of it with other identifiers. -/
theorem Execute_ignores_hidden_witness :
    (New 0).Execute scriptWorld "python" "def twoSum(a, t): return [0, 1]" [twoSumCase]
        [goodRun] =
      (New 0).Execute scriptWorld "python" "def twoSum(a, t): return [0, 1]"
        [{ ID := 9, ProblemID := 4, Input := "[2,7,11,15],9", Expected := "[0,1]",
           IsHidden := true }] [goodRun] :=
  Execute_ignores_hidden scriptWorld (New 0) "python" "def twoSum(a, t): return [0, 1]"
    [twoSumCase] _ [goodRun] (by decide)

end executor

namespace submissionApp

open problem submission

variable {σ : Type}

/-- C16: with the executor of `code_executor.go` behind the service and a problem `p`
found by the repository, a submission returned by `RunCode` has one result per test
case of `p` that is not hidden, in order, carrying its `Input` and its trimmed
`Expected`, and a submission returned by `SubmitCode` has one result per test case of
`p`, hidden ones included; both return a submission when the submission repository
stores it. -/
theorem service_results (A : Ambient σ) (W : executor.World σ) (e : executor.CodeExecutor)
    (submissionRepo : SubmissionRepository σ) (problemRepo : ProblemRepository σ)
    (problemID : Nat) (language code : String) (s : σ) (p : Problem)
    (hfind : (problemRepo.FindByID problemID s).1 = .ok p) :
    (∀ sub, ((NewService submissionRepo problemRepo (concreteExecutor W e)).RunCode A
          problemID language code s).1 = .ok sub →
        sub.Results.map (fun r => (r.Input, r.Expected)) =
          (p.TestCases.filter (fun tc => !tc.IsHidden)).map
            (fun tc => (tc.Input, TrimSpace tc.Expected))) ∧
      (∀ sub, ((NewService submissionRepo problemRepo (concreteExecutor W e)).SubmitCode A
          problemID language code s).1 = .ok sub →
        sub.Results.map (fun r => (r.Input, r.Expected)) =
          p.TestCases.map (fun tc => (tc.Input, TrimSpace tc.Expected))) ∧
      ((∀ sub t, (submissionRepo.Create sub t).1 = none) →
        (∃ sub, ((NewService submissionRepo problemRepo (concreteExecutor W e)).RunCode A
          problemID language code s).1 = .ok sub) ∧
        ∃ sub, ((NewService submissionRepo problemRepo (concreteExecutor W e)).SubmitCode A
          problemID language code s).1 = .ok sub) := by
  refine ⟨fun sub h => ?_, fun sub h => ?_, fun hc => ⟨?_, ?_⟩⟩
  · obtain ⟨id, now, t, rfl⟩ := RunCode_ok A _ problemID language code s p sub hfind h
    rw [SetResults_Results, ← VisibleTestCases_eq_filter]
    exact executor.Execute_map_Input_Expected W e language code _ t
  · obtain ⟨id, now, t, rfl⟩ := SubmitCode_ok A _ problemID language code s p sub hfind h
    rw [SetResults_Results]
    exact executor.Execute_map_Input_Expected W e language code _ t
  · exact RunCode_returns A _ problemID language code s p hfind hc
  · exact SubmitCode_returns A _ problemID language code s p hfind hc

/-- C16, at a problem with a visible and a hidden test case: `RunCode` returns one
result, for the visible test case, and `SubmitCode` returns two. -/
theorem service_results_witness :
    (∃ sub, ((NewService acceptingRepo (fixedProblemRepo twoCasesProblem)
          (concreteExecutor executor.scriptWorld (executor.New 0))).RunCode fixedAmbient 1
          "python" "def twoSum(a, t): return [0, 1]" []).1 = .ok sub ∧
        sub.Results.map (fun r => (r.Input, r.Expected)) = [("[2,7,11,15],9", "[0,1]")]) ∧
      ∃ sub, ((NewService acceptingRepo (fixedProblemRepo twoCasesProblem)
          (concreteExecutor executor.scriptWorld (executor.New 0))).SubmitCode fixedAmbient 1
          "python" "def twoSum(a, t): return [0, 1]" []).1 = .ok sub ∧
        sub.Results.map (fun r => (r.Input, r.Expected)) =
          [("[2,7,11,15],9", "[0,1]"), ("[3,3],6", "[0,1]")] :=
  ⟨⟨_, rfl, ((service_results fixedAmbient executor.scriptWorld (executor.New 0)
      acceptingRepo (fixedProblemRepo twoCasesProblem) 1 "python"
      "def twoSum(a, t): return [0, 1]" [] twoCasesProblem rfl).1 _ rfl).trans (by decide)⟩,
    ⟨_, rfl, ((service_results fixedAmbient executor.scriptWorld (executor.New 0)
      acceptingRepo (fixedProblemRepo twoCasesProblem) 1 "python"
      "def twoSum(a, t): return [0, 1]" [] twoCasesProblem rfl).2.1 _ rfl).trans (by decide)⟩⟩

end submissionApp

namespace executor

open problem submission

variable {σ : Type}

/-- C18: `New 0` gives the timeout of five seconds, `New d` with `d ≠ 0` gives the
timeout `d`, and in one call of `Execute` every run is started with the timeout of the
executor: a world that puts that timeout in place of the one it is handed behaves the
same. -/
theorem New_timeout_uniform (W : World σ) (e : CodeExecutor) (language code : String)
    (tcs : List TestCase) (s : σ) :
    (New 0).timeout = 5 * Second ∧ (New 0).timeout = 5000000000 ∧
      (∀ d : Int, d ≠ 0 → (New d).timeout = d) ∧
      e.Execute { now := W.now, run := fun cmd _ t => W.run cmd e.timeout t } language code
        tcs s = e.Execute W language code tcs s := by
  refine ⟨rfl, rfl, fun d hd => ?_, ?_⟩
  · simp [New, hd]
  · induction tcs generalizing s with
    | nil => rfl
    | cons tc rest ih => rw [Execute_cons, Execute_cons, executeOne_timeout, ih]

/-- C18, at a timeout of 200 milliseconds and two test cases: both runs are started
with that timeout. -/
theorem New_timeout_uniform_witness :
    (New 200000000).timeout = 200000000 ∧
      ((New 200000000).Execute deadlineLog "python" "def twoSum(a, t): return [0, 1]"
        [twoSumCase, secondCase] []).2 = [200000000, 200000000] ∧
      ((New 0).Execute deadlineLog "go" "var answer = 1"
        [twoSumCase, secondCase] []).2 = [5000000000, 5000000000] :=
  ⟨(New_timeout_uniform deadlineLog (New 200000000) "python"
      "def twoSum(a, t): return [0, 1]" [twoSumCase, secondCase] []).2.2.1 200000000
      (by decide),
    by decide, by decide⟩

end executor

namespace submission

/-- C19: for every result list the status set by `SetResults` is `StatusAccepted` or
`StatusWrong`, and it is none of `StatusPending`, `StatusRunning`, `StatusError` and
`StatusTimeout`, whatever the texts of the results are. -/
theorem SetResults_Status_two_valued (s : Submission) (rs : List TestResult) :
    ((s.SetResults rs).Status = StatusAccepted ∨ (s.SetResults rs).Status = StatusWrong) ∧
      (s.SetResults rs).Status ≠ StatusPending ∧ (s.SetResults rs).Status ≠ StatusRunning ∧
      (s.SetResults rs).Status ≠ StatusError ∧ (s.SetResults rs).Status ≠ StatusTimeout := by
  rw [SetResults_Status]
  rcases calculateStatusLoop_cases rs with h | h <;> rw [h] <;>
    exact ⟨by simp, by decide, by decide, by decide, by decide⟩

end submission

namespace submissionApp

open problem submission

variable {σ : Type}

/-- C20: for every language and code, `Execute` on the empty list returns the empty
list with the world untouched, and `SetResults` on the empty list sets the status
`StatusAccepted` and the runtime 0, with `PassedCount` and `TotalCount` both 0; hence,
for a found problem without visible test case, every submission that `RunCode` returns
is accepted, and `RunCode` returns one when the submission repository stores it. -/
theorem empty_run_accepted (A : Ambient σ) (W : executor.World σ) (e : executor.CodeExecutor)
    (submissionRepo : SubmissionRepository σ) (problemRepo : ProblemRepository σ)
    (problemID : Nat) (language code : String) (s : σ) (p : Problem) (sub0 : Submission)
    (hfind : (problemRepo.FindByID problemID s).1 = .ok p)
    (hvisible : p.VisibleTestCases = []) :
    e.Execute W language code [] s = ([], s) ∧
      (sub0.SetResults []).Status = StatusAccepted ∧ (sub0.SetResults []).Runtime = 0 ∧
      (sub0.SetResults []).PassedCount = 0 ∧ (sub0.SetResults []).TotalCount = 0 ∧
      (∀ sub, ((NewService submissionRepo problemRepo (concreteExecutor W e)).RunCode A
          problemID language code s).1 = .ok sub →
        sub.Status = StatusAccepted ∧ sub.Results = [] ∧ sub.Runtime = 0 ∧
          sub.PassedCount = 0 ∧ sub.TotalCount = 0) ∧
      ((∀ sub t, (submissionRepo.Create sub t).1 = none) →
        ∃ sub, ((NewService submissionRepo problemRepo (concreteExecutor W e)).RunCode A
          problemID language code s).1 = .ok sub) := by
  refine ⟨rfl, rfl, rfl, rfl, rfl, fun sub h => ?_, fun hc => ?_⟩
  · obtain ⟨id, now, t, rfl⟩ := RunCode_ok A _ problemID language code s p sub hfind h
    rw [hvisible]
    exact ⟨rfl, rfl, rfl, rfl, rfl⟩
  · exact RunCode_returns A _ problemID language code s p hfind hc

/-- C20, at a problem whose only test case is hidden, for the unsupported language
`cobol`: `RunCode` returns an accepted submission. -/
theorem empty_run_accepted_witness :
    ∃ sub, ((NewService acceptingRepo (fixedProblemRepo hiddenOnlyProblem)
        (concreteExecutor executor.scriptWorld (executor.New 0))).RunCode fixedAmbient 2
        "cobol" "DISPLAY 1." []).1 = .ok sub ∧
      sub.Status = StatusAccepted ∧ sub.Results = [] ∧ sub.Runtime = 0 ∧
        sub.PassedCount = 0 ∧ sub.TotalCount = 0 :=
  ⟨_, rfl, (empty_run_accepted fixedAmbient executor.scriptWorld (executor.New 0) acceptingRepo
    (fixedProblemRepo hiddenOnlyProblem) 2 "cobol" "DISPLAY 1." [] hiddenOnlyProblem
    executor.freshSubmission rfl (by decide)).2.2.2.2.2.1 _ rfl⟩

end submissionApp
